import Mathlib

/-!
Verification of the RoostLogger utilities against their design description.

The embedding below models the interval-stream decoder, duration aggregator
and night/time binner of the repository.  The decoder is the core of
RoostLogger_ActivityTempReport2.py (function anabat_duration, the while loop
over the interval data region); the binner is build_time_heatmap of
RoostLogger_ActivityHeatmap.py (the same index arithmetic appears in
RoostLogger_ActivityReport.py).  Buffers are lists of byte values; the data
region is the byte list from the data pointer to end of file, scanned with an
explicit cursor exactly as the source does.
-/

namespace RoostLogger

/-- Error outcomes of the decoder: truncated models the struct.error raised by
Byte.unpack_from when asked to read past the end of the mapped buffer (the
condition the design calls FormatError Truncated), and indexOOB models the
numpy IndexError raised by a write past the end of the fixed-size
intervals_us array. -/
inductive DecodeError where
  | truncated
  | indexOOB
deriving DecidableEq, Repr

/-- Capacity of the intervals_us storage in the source: np.empty(2**14, u4). -/
def STORAGE_CAP : Nat := 2 ^ 14

/-- Model of Byte.unpack_from(m, i): the byte at index i, or the struct.error
(DecodeError.truncated) when i is past the end of the buffer. -/
def fetch (m : List Nat) (i : Nat) : Except DecodeError Nat :=
  match m[i]? with
  | some b => Except.ok b
  | none => Except.error DecodeError.truncated

/-- Source line 50: offset = byte if byte < 2**6 else byte - 2**7. -/
def deltaOffset (b : Nat) : Int :=
  if b < 2 ^ 6 then (b : Int) else (b : Int) - 2 ^ 7

/-- Write of a decoded value v at index int_i = ivs.length of the intervals_us
array: in bounds it appends, past the 2^14 capacity it raises the numpy
IndexError, modelled as DecodeError.indexOOB. -/
def store (ivs : List Nat) (v : Nat) : Except DecodeError (List Nat) :=
  if ivs.length < STORAGE_CAP then Except.ok (ivs ++ [v])
  else Except.error DecodeError.indexOOB

/-- One iteration of the while loop of anabat_duration (source lines 45 to 99),
at cursor i with the intervals decoded so far in ivs; yields the new cursor and
interval list, or the error that iteration raises.  In the delta branch the
stored value is the u4 cast of intervals_us[int_i - 1] + offset, that is
(previous + offset) mod 2^32; when int_i = 0 the source only prints a
diagnostic and skips the byte. -/
def decodeStep (m : List Nat) (i : Nat) (ivs : List Nat) :
    Except DecodeError (Nat × List Nat) :=
  let b := m.getD i 0
  if b ≤ 0x7F then
    if 0 < ivs.length then
      (store ivs ((((ivs.getLast?.getD 0 : Nat) : Int) + deltaOffset b) % (2 ^ 32 : Int)).toNat).map
        (fun ivs' => (i + 1, ivs'))
    else
      Except.ok (i + 1, ivs)
  else if b ≤ 0x9F then
    (fetch m (i + 1)).bind fun b1 =>
      (store ivs (((b &&& 0b00011111) <<< 8) ||| b1)).map fun ivs' => (i + 2, ivs')
  else if b ≤ 0xBF then
    (fetch m (i + 1)).bind fun b1 =>
      (fetch m (i + 2)).bind fun b2 =>
        (store ivs ((((b &&& 0b00011111) <<< 16) ||| (b1 <<< 8)) ||| b2)).map
          fun ivs' => (i + 3, ivs')
  else if b ≤ 0xDF then
    (fetch m (i + 1)).bind fun b1 =>
      (fetch m (i + 2)).bind fun b2 =>
        (fetch m (i + 3)).bind fun b3 =>
          (store ivs (((((b &&& 0b00011111) <<< 24) ||| (b1 <<< 16)) ||| (b2 <<< 8)) ||| b3)).map
            fun ivs' => (i + 4, ivs')
  else
    (fetch m (i + 1)).map fun _ => (i + 2, ivs)

/-- Fuel-indexed unfolding of the while loop i < size (source line 45).  Every
iteration advances the cursor by at least one, so fuel covering m.length - i
iterations always suffices; fuel can therefore run out only with the cursor at
or past the end of the buffer, where the loop exits returning ivs, which is
what the fuel-zero case returns as well. -/
def decodeLoopF : Nat → List Nat → Nat → List Nat → Except DecodeError (List Nat)
  | 0, _, _, ivs => Except.ok ivs
  | fuel + 1, m, i, ivs =>
    if i < m.length then
      match decodeStep m i ivs with
      | Except.error e => Except.error e
      | Except.ok (i', ivs') => decodeLoopF fuel m i' ivs'
    else Except.ok ivs

/-- Decoding of the whole interval data region: the while loop of
anabat_duration run from the start of the region with int_i = 0.  The buffer m
is the data region (the file bytes from data_pointer onward), so the cursor
starts at 0. -/
def anabat_decode (m : List Nat) : Except DecodeError (List Nat) :=
  decodeLoopF m.length m 0 []

/-- Variant of decodeLoopF that also reports the final cursor position, used to
state at which cursor the loop terminates cleanly. -/
def decodeLoopC : Nat → List Nat → Nat → List Nat → Except DecodeError (Nat × List Nat)
  | 0, _, i, ivs => Except.ok (i, ivs)
  | fuel + 1, m, i, ivs =>
    if i < m.length then
      match decodeStep m i ivs with
      | Except.error e => Except.error e
      | Except.ok (i', ivs') => decodeLoopC fuel m i' ivs'
    else Except.ok (i, ivs)

/-- Duration aggregation (source lines 101 to 104): np.sum of the decoded
intervals times 1e-6, the sum and the scale factor represented exactly over
the rationals. -/
def duration_s (ivs : List Nat) : ℚ :=
  ((ivs.foldl (fun a b => a + b) 0 : Nat) : ℚ) * (1 / 1000000)

/-- Full anabat_duration on a data region: decode, then aggregate. -/
def anabat_duration_s (m : List Nat) : Except DecodeError ℚ :=
  (anabat_decode m).map duration_s

/-- Cursor advance per opcode as the design table states it: 1 byte total for
0x00 to 0x7F, 2 for 0x80 to 0x9F, 3 for 0xA0 to 0xBF, 4 for 0xC0 to 0xDF and
2 for the status range 0xE0 to 0xFF. -/
def opcodeAdvance (b : Nat) : Nat :=
  if b ≤ 0x7F then 1
  else if b ≤ 0x9F then 2
  else if b ≤ 0xBF then 3
  else if b ≤ 0xDF then 4
  else 2

/-- Calendar date; the binner only needs equality on dates. -/
structure Date where
  year : Nat
  month : Nat
  day : Nat
deriving DecidableEq, Repr

/-- Capture timestamp fields consumed by the binner. -/
structure Timestamp where
  date : Date
  hour : Nat
  minute : Nat
deriving DecidableEq, Repr

/-- BINSIZE_MINUTES = 15 in RoostLogger_ActivityHeatmap.py. -/
def BINSIZE_MINUTES : Nat := 15

/-- Bins per hour for a bin width: 60 / binsize with integer division, exactly
as the Python 2 sources compute it. -/
def binsPerHour (binsize : Nat) : Nat := 60 / binsize

/-- Row index of a capture, from the source expression
timestamp.hour * BINS_PER_HOUR + timestamp.minute // BINSIZE, stated for a
general bin width. -/
def binRow (binsize hour minute : Nat) : Nat :=
  hour * binsPerHour binsize + minute / binsize

/-- np.zeros((rows, cols)) as a list of rows. -/
def gridZeros (rows cols : Nat) : List (List Nat) :=
  List.replicate rows (List.replicate cols 0)

/-- The increment heatmap[y, x] += 1. -/
def gridInc (g : List (List Nat)) (y x : Nat) : List (List Nat) :=
  g.set y ((g.getD y []).set x ((g.getD y []).getD x 0 + 1))

/-- Contribution of one timestamp inside build_time_heatmap (source lines 137 to
145): dates.index raising ValueError, caught by the continue, is the none case
of the first-index search. -/
def binStep (dates : List Date) (g : List (List Nat)) (ts : Timestamp) : List (List Nat) :=
  match dates.findIdx? (fun d => decide (d = ts.date)) with
  | some x => gridInc g (binRow BINSIZE_MINUTES ts.hour ts.minute) x
  | none => g

/-- build_time_heatmap (source lines 136 to 150; the optional log1p rescaling
is display-only and not part of the accumulation). -/
def build_time_heatmap (dates : List Date) (timestamps : List Timestamp) : List (List Nat) :=
  timestamps.foldl (binStep dates) (gridZeros (24 * binsPerHour BINSIZE_MINUTES) dates.length)

/-- Inversion of Except.map landing on ok. -/
theorem except_map_eq_ok {e a b : Type} {x : Except e a} {f : a → b} {r : b}
    (h : x.map f = Except.ok r) : ∃ v, x = Except.ok v ∧ f v = r := by
  cases x with
  | error er => simp [Except.map] at h
  | ok v => exact ⟨v, rfl, by simpa [Except.map] using h⟩

/-- Inversion of Except.bind landing on ok. -/
theorem except_bind_eq_ok {e a b : Type} {x : Except e a} {f : a → Except e b} {r : b}
    (h : x.bind f = Except.ok r) : ∃ v, x = Except.ok v ∧ f v = Except.ok r := by
  cases x with
  | error er => simp [Except.bind] at h
  | ok v => exact ⟨v, rfl, h⟩

/-- Reading past the end of the buffer is the truncation error. -/
theorem fetch_eq_error {m : List Nat} {i : Nat} (h : m.length ≤ i) :
    fetch m i = Except.error DecodeError.truncated := by
  simp [fetch, List.getElem?_eq_none h]

/-- Reading inside the buffer returns the byte at that index. -/
theorem fetch_eq_ok {m : List Nat} {i : Nat} (h : i < m.length) :
    fetch m i = Except.ok (m.getD i 0) := by
  simp [fetch, List.getElem?_eq_getElem h, List.getD]

/-- A successful read only happens inside the buffer. -/
theorem fetch_ok_lt {m : List Nat} {i : Nat} {b : Nat} (h : fetch m i = Except.ok b) :
    i < m.length := by
  by_contra hge
  rw [fetch_eq_error (by omega)] at h
  exact Except.noConfusion h

/-- A successful store appends the value to the interval list. -/
theorem store_ok_inv {ivs out : List Nat} {v : Nat} (h : store ivs v = Except.ok out) :
    ivs.length < STORAGE_CAP ∧ out = ivs ++ [v] := by
  unfold store at h
  split at h
  · exact ⟨by assumption, by cases h; rfl⟩
  · exact Except.noConfusion h

/-- Complete success inversion for one decoder iteration: which opcode class
fired, the exact new cursor, and the in-bounds facts the successful reads
imply. -/
theorem decodeStep_ok_inv {m : List Nat} {i : Nat} {ivs : List Nat} {i' : Nat} {ivs' : List Nat}
    (h : decodeStep m i ivs = Except.ok (i', ivs')) :
    (m.getD i 0 ≤ 0x7F ∧ i' = i + 1)
    ∨ (0x7F < m.getD i 0 ∧ m.getD i 0 ≤ 0x9F ∧ i' = i + 2 ∧ i + 1 < m.length)
    ∨ (0x9F < m.getD i 0 ∧ m.getD i 0 ≤ 0xBF ∧ i' = i + 3 ∧ i + 2 < m.length)
    ∨ (0xBF < m.getD i 0 ∧ m.getD i 0 ≤ 0xDF ∧ i' = i + 4 ∧ i + 3 < m.length)
    ∨ (0xDF < m.getD i 0 ∧ i' = i + 2 ∧ i + 1 < m.length) := by
  simp only [decodeStep] at h
  split at h
  · rename_i h7
    left
    refine ⟨h7, ?_⟩
    split at h
    · obtain ⟨v, hv, hf⟩ := except_map_eq_ok h
      exact (Prod.mk.injEq _ _ _ _ ▸ hf).1.symm
    · cases h
      rfl
  · rename_i h7
    split at h
    · rename_i h9
      obtain ⟨b1, hb1, h⟩ := except_bind_eq_ok h
      obtain ⟨v, hv, hf⟩ := except_map_eq_ok h
      right; left
      exact ⟨by omega, h9, (Prod.mk.injEq _ _ _ _ ▸ hf).1.symm, fetch_ok_lt hb1⟩
    · rename_i h9
      split at h
      · rename_i hB
        obtain ⟨b1, hb1, h⟩ := except_bind_eq_ok h
        obtain ⟨b2, hb2, h⟩ := except_bind_eq_ok h
        obtain ⟨v, hv, hf⟩ := except_map_eq_ok h
        right; right; left
        exact ⟨by omega, hB, (Prod.mk.injEq _ _ _ _ ▸ hf).1.symm, fetch_ok_lt hb2⟩
      · rename_i hB
        split at h
        · rename_i hD
          obtain ⟨b1, hb1, h⟩ := except_bind_eq_ok h
          obtain ⟨b2, hb2, h⟩ := except_bind_eq_ok h
          obtain ⟨b3, hb3, h⟩ := except_bind_eq_ok h
          obtain ⟨v, hv, hf⟩ := except_map_eq_ok h
          right; right; right; left
          exact ⟨by omega, hD, (Prod.mk.injEq _ _ _ _ ▸ hf).1.symm, fetch_ok_lt hb3⟩
        · rename_i hD
          obtain ⟨b1, hb1, hf⟩ := except_map_eq_ok h
          right; right; right; right
          exact ⟨by omega, (Prod.mk.injEq _ _ _ _ ▸ hf).1.symm, fetch_ok_lt hb1⟩

/-- Every successful iteration advances the cursor by exactly the advance of
the opcode byte it consumed. -/
theorem decodeStep_advance {m : List Nat} {i : Nat} {ivs : List Nat} {i' : Nat} {ivs' : List Nat}
    (h : decodeStep m i ivs = Except.ok (i', ivs')) :
    i' = i + opcodeAdvance (m.getD i 0) := by
  unfold opcodeAdvance
  rcases decodeStep_ok_inv h with ⟨h7, hi⟩ | ⟨h7, h9, hi, _⟩ | ⟨h9, hB, hi, _⟩
    | ⟨hB, hD, hi, _⟩ | ⟨hD, hi, _⟩
  · rw [if_pos h7]; omega
  · rw [if_neg (by omega), if_pos h9]; omega
  · rw [if_neg (by omega), if_neg (by omega), if_pos hB]; omega
  · rw [if_neg (by omega), if_neg (by omega), if_neg (by omega), if_pos hD]; omega
  · rw [if_neg (by omega), if_neg (by omega), if_neg (by omega), if_neg (by omega)]; omega

/-- A successful iteration moves the cursor strictly forward. -/
theorem decodeStep_cursor_gt {m : List Nat} {i : Nat} {ivs : List Nat} {i' : Nat} {ivs' : List Nat}
    (h : decodeStep m i ivs = Except.ok (i', ivs')) : i < i' := by
  rcases decodeStep_ok_inv h with ⟨h7, hi⟩ | ⟨h7, h9, hi, _⟩ | ⟨h9, hB, hi, _⟩
    | ⟨hB, hD, hi, _⟩ | ⟨hD, hi, _⟩ <;> omega

/-- A successful iteration starting inside the buffer never moves the cursor
past the end of the buffer. -/
theorem decodeStep_cursor_le {m : List Nat} {i : Nat} {ivs : List Nat} {i' : Nat} {ivs' : List Nat}
    (hi : i < m.length) (h : decodeStep m i ivs = Except.ok (i', ivs')) :
    i' ≤ m.length := by
  rcases decodeStep_ok_inv h with ⟨h7, he⟩ | ⟨h7, h9, he, hl⟩ | ⟨h9, hB, he, hl⟩
    | ⟨hB, hD, he, hl⟩ | ⟨hD, he, hl⟩ <;> omega

/-- Mapping after mapping composes on Except. -/
theorem except_map_map {e a b c : Type} (x : Except e a) (f : a → b) (g : b → c) :
    (x.map f).map g = x.map fun v => g (f v) := by
  cases x <;> rfl

/-- Mapping after binding pushes inside the bind on Except. -/
theorem except_bind_map {e a b c : Type} (x : Except e a) (f : a → Except e b) (g : b → c) :
    (x.bind f).map g = x.bind fun v => (f v).map g := by
  cases x <;> rfl

/-- Reads shift through a prepended byte. -/
theorem fetch_cons {x j : Nat} {m : List Nat} : fetch (x :: m) (j + 1) = fetch m j := by
  simp [fetch]

/-- One iteration at cursor i + 1 over a buffer with one byte prepended is one
iteration at cursor i over the original buffer, with the resulting cursor
shifted by one. -/
theorem decodeStep_cons {x : Nat} {m : List Nat} {i : Nat} {ivs : List Nat} :
    decodeStep (x :: m) (i + 1) ivs = (decodeStep m i ivs).map fun p => (p.1 + 1, p.2) := by
  have hf1 : fetch (x :: m) (i + 1 + 1) = fetch m (i + 1) := fetch_cons
  have hf2 : fetch (x :: m) (i + 1 + 2) = fetch m (i + 2) := by
    rw [show i + 1 + 2 = i + 2 + 1 by omega]; exact fetch_cons
  have hf3 : fetch (x :: m) (i + 1 + 3) = fetch m (i + 3) := by
    rw [show i + 1 + 3 = i + 3 + 1 by omega]; exact fetch_cons
  simp only [decodeStep, List.getD_cons_succ, hf1, hf2, hf3]
  by_cases h7 : m.getD i 0 ≤ 0x7F
  · simp only [if_pos h7]
    by_cases hne : 0 < ivs.length
    · simp only [if_pos hne, except_map_map]
    · simp only [if_neg hne, Except.map]
  · simp only [if_neg h7]
    by_cases h9 : m.getD i 0 ≤ 0x9F
    · simp only [if_pos h9, except_bind_map, except_map_map]
    · simp only [if_neg h9]
      by_cases hB : m.getD i 0 ≤ 0xBF
      · simp only [if_pos hB, except_bind_map, except_map_map]
      · simp only [if_neg hB]
        by_cases hD : m.getD i 0 ≤ 0xDF
        · simp only [if_pos hD, except_bind_map, except_map_map]
        · simp only [if_neg hD, except_map_map]

/-- The whole loop at cursor i + 1 over a buffer with one byte prepended is
the loop at cursor i over the original buffer. -/
theorem decodeLoopF_cons {x : Nat} {m : List Nat} :
    ∀ fuel i ivs, decodeLoopF fuel (x :: m) (i + 1) ivs = decodeLoopF fuel m i ivs := by
  intro fuel
  induction fuel with
  | zero => intro i ivs; rfl
  | succ f ih =>
    intro i ivs
    simp only [decodeLoopF, List.length_cons, Nat.add_lt_add_iff_right, decodeStep_cons]
    by_cases hi : i < m.length
    · simp only [if_pos hi]
      cases hs : decodeStep m i ivs with
      | error e => rfl
      | ok p =>
        cases p with
        | mk i' ivs' => exact ih i' ivs'
    · simp only [if_neg hi]

/-- One-step unfolding of the loop, for rewriting without re-unfolding. -/
theorem decodeLoopF_succ (fuel : Nat) (m : List Nat) (i : Nat) (ivs : List Nat) :
    decodeLoopF (fuel + 1) m i ivs =
      if i < m.length then
        match decodeStep m i ivs with
        | Except.error e => Except.error e
        | Except.ok (i', ivs') => decodeLoopF fuel m i' ivs'
      else Except.ok ivs := rfl

/-- More fuel never changes the result once fuel covers the remaining bytes. -/
theorem decodeLoopF_mono {m : List Nat} :
    ∀ fuel fuel' i ivs, fuel ≤ fuel' → m.length - i ≤ fuel →
      decodeLoopF fuel m i ivs = decodeLoopF fuel' m i ivs := by
  intro fuel
  induction fuel with
  | zero =>
    intro fuel' i ivs hle hfi
    have hi : ¬ i < m.length := by omega
    cases fuel' with
    | zero => rfl
    | succ f => simp [decodeLoopF, hi]
  | succ f ih =>
    intro fuel' i ivs hle hfi
    cases fuel' with
    | zero => omega
    | succ f' =>
      simp only [decodeLoopF]
      by_cases hi : i < m.length
      · simp only [if_pos hi]
        cases hs : decodeStep m i ivs with
        | error e => rfl
        | ok p =>
          cases p with
          | mk i' ivs' =>
            have hgt := decodeStep_cursor_gt hs
            exact ih f' i' ivs' (by omega) (by omega)
      · simp only [if_neg hi]

/-- Any two sufficient fuel values give the same result. -/
theorem decodeLoopF_stable {m : List Nat} {fuel fuel' i : Nat} {ivs : List Nat}
    (h : m.length - i ≤ fuel) (h' : m.length - i ≤ fuel') :
    decodeLoopF fuel m i ivs = decodeLoopF fuel' m i ivs := by
  rcases Nat.le_total fuel fuel' with hle | hle
  · exact decodeLoopF_mono fuel fuel' i ivs hle h
  · exact (decodeLoopF_mono fuel' fuel i ivs hle h').symm

/-- With the cursor at or past the end of the buffer the loop exits at once,
returning the cursor unchanged and the intervals accumulated so far. -/
theorem decodeLoopC_at_end {fuel : Nat} {m : List Nat} {i : Nat} {ivs : List Nat}
    (h : m.length ≤ i) : decodeLoopC fuel m i ivs = Except.ok (i, ivs) := by
  cases fuel with
  | zero => rfl
  | succ f => simp [decodeLoopC, Nat.not_lt.mpr h]

/-- The plain loop is the cursor-reporting loop with the cursor dropped. -/
theorem decodeLoopF_eq_loopC {m : List Nat} :
    ∀ fuel i ivs, decodeLoopF fuel m i ivs = (decodeLoopC fuel m i ivs).map fun p => p.2 := by
  intro fuel
  induction fuel with
  | zero => intro i ivs; rfl
  | succ f ih =>
    intro i ivs
    simp only [decodeLoopF, decodeLoopC]
    by_cases hi : i < m.length
    · simp only [if_pos hi]
      cases hs : decodeStep m i ivs with
      | error e => rfl
      | ok p =>
        cases p with
        | mk i' ivs' => exact ih i' ivs'
    · simp only [if_neg hi, Except.map]

/-- When the loop terminates cleanly from a cursor inside the buffer, with
enough fuel, the final cursor is exactly the buffer length: the loop stops at
the end of the buffer, on an opcode boundary, never beyond it. -/
theorem decodeLoopC_final_cursor {m : List Nat} :
    ∀ fuel i ivs cur out, m.length - i ≤ fuel → i ≤ m.length →
      decodeLoopC fuel m i ivs = Except.ok (cur, out) → cur = m.length := by
  intro fuel
  induction fuel with
  | zero =>
    intro i ivs cur out hf hi h
    simp only [decodeLoopC] at h
    cases h
    omega
  | succ f ih =>
    intro i ivs cur out hf hi h
    simp only [decodeLoopC] at h
    by_cases hlt : i < m.length
    · rw [if_pos hlt] at h
      cases hs : decodeStep m i ivs with
      | error e =>
        rw [hs] at h
        exact Except.noConfusion h
      | ok p =>
        rw [hs] at h
        cases p with
        | mk i' ivs' =>
          have h1 := decodeStep_cursor_gt hs
          have h2 := decodeStep_cursor_le hlt hs
          exact ih i' ivs' cur out (by omega) h2 h
    · rw [if_neg hlt] at h
      cases h
      omega

/-- Binding an ok value reduces. -/
theorem except_bind_ok {e a b : Type} (v : a) (f : a → Except e b) :
    (Except.ok v : Except e a).bind f = f v := rfl

/-- Mapping over an ok value reduces. -/
theorem except_map_ok {e a b : Type} (v : a) (f : a → b) :
    (Except.ok v : Except e a).map f = Except.ok (f v) := rfl

/-- Delta branch with a previously decoded interval and room to store: the
appended value is the u4 cast of previous + offset. -/
theorem decodeStep_delta {m : List Nat} {i p b : Nat} {ivs : List Nat}
    (hb : b ≤ 0x7F) (hm : m.getD i 0 = b) (hlast : ivs.getLast? = some p)
    (hcap : ivs.length < STORAGE_CAP) :
    decodeStep m i ivs =
      Except.ok (i + 1, ivs ++ [(((p : Int) + deltaOffset b) % (2 ^ 32 : Int)).toNat]) := by
  have hne : 0 < ivs.length := by
    cases ivs with
    | nil => simp at hlast
    | cons a l => simp
  simp only [decodeStep, hm, if_pos hb, if_pos hne, hlast, Option.getD_some, store,
    if_pos hcap, except_map_ok]

/-- Delta branch before any decoded interval: the byte is only skipped. -/
theorem decodeStep_delta_skip {m : List Nat} {i : Nat}
    (hb : m.getD i 0 ≤ 0x7F) :
    decodeStep m i [] = Except.ok (i + 1, []) := by
  have hne : ¬ 0 < ([] : List Nat).length := by simp
  simp only [decodeStep, if_pos hb, if_neg hne]

/-- The 13-bit absolute branch: low five opcode bits shifted high, one data
byte below them. -/
theorem decodeStep_abs13 {m : List Nat} {i b b1 : Nat} {ivs : List Nat}
    (hb0 : 0x80 ≤ b) (hb : b ≤ 0x9F) (hm : m.getD i 0 = b)
    (h1 : m[i + 1]? = some b1) (hcap : ivs.length < STORAGE_CAP) :
    decodeStep m i ivs = Except.ok (i + 2, ivs ++ [((b &&& 0b00011111) <<< 8) ||| b1]) := by
  have hfe : fetch m (i + 1) = Except.ok b1 := by simp [fetch, h1]
  simp only [decodeStep, hm, if_neg (by omega : ¬ b ≤ 0x7F), if_pos hb, hfe, except_bind_ok,
    store, if_pos hcap, except_map_ok]

/-- The 21-bit absolute branch. -/
theorem decodeStep_abs21 {m : List Nat} {i b b1 b2 : Nat} {ivs : List Nat}
    (hb0 : 0xA0 ≤ b) (hb : b ≤ 0xBF) (hm : m.getD i 0 = b)
    (h1 : m[i + 1]? = some b1) (h2 : m[i + 2]? = some b2) (hcap : ivs.length < STORAGE_CAP) :
    decodeStep m i ivs =
      Except.ok (i + 3, ivs ++ [(((b &&& 0b00011111) <<< 16) ||| (b1 <<< 8)) ||| b2]) := by
  have hfe1 : fetch m (i + 1) = Except.ok b1 := by simp [fetch, h1]
  have hfe2 : fetch m (i + 2) = Except.ok b2 := by simp [fetch, h2]
  simp only [decodeStep, hm, if_neg (by omega : ¬ b ≤ 0x7F), if_neg (by omega : ¬ b ≤ 0x9F),
    if_pos hb, hfe1, hfe2, except_bind_ok, store, if_pos hcap, except_map_ok]

/-- The 29-bit absolute branch. -/
theorem decodeStep_abs29 {m : List Nat} {i b b1 b2 b3 : Nat} {ivs : List Nat}
    (hb0 : 0xC0 ≤ b) (hb : b ≤ 0xDF) (hm : m.getD i 0 = b)
    (h1 : m[i + 1]? = some b1) (h2 : m[i + 2]? = some b2) (h3 : m[i + 3]? = some b3)
    (hcap : ivs.length < STORAGE_CAP) :
    decodeStep m i ivs =
      Except.ok (i + 4, ivs ++ [((((b &&& 0b00011111) <<< 24) ||| (b1 <<< 16)) ||| (b2 <<< 8)) ||| b3]) := by
  have hfe1 : fetch m (i + 1) = Except.ok b1 := by simp [fetch, h1]
  have hfe2 : fetch m (i + 2) = Except.ok b2 := by simp [fetch, h2]
  have hfe3 : fetch m (i + 3) = Except.ok b3 := by simp [fetch, h3]
  simp only [decodeStep, hm, if_neg (by omega : ¬ b ≤ 0x7F), if_neg (by omega : ¬ b ≤ 0x9F),
    if_neg (by omega : ¬ b ≤ 0xBF), if_pos hb, hfe1, hfe2, hfe3, except_bind_ok,
    store, if_pos hcap, except_map_ok]

/-- The status-marker branch consumes the count byte and emits no interval. -/
theorem decodeStep_status {m : List Nat} {i b c : Nat} {ivs : List Nat}
    (hb0 : 0xE0 ≤ b) (hm : m.getD i 0 = b) (h1 : m[i + 1]? = some c) :
    decodeStep m i ivs = Except.ok (i + 2, ivs) := by
  have hfe : fetch m (i + 1) = Except.ok c := by simp [fetch, h1]
  simp only [decodeStep, hm, if_neg (by omega : ¬ b ≤ 0x7F), if_neg (by omega : ¬ b ≤ 0x9F),
    if_neg (by omega : ¬ b ≤ 0xBF), if_neg (by omega : ¬ b ≤ 0xDF), hfe, except_map_ok]

/-- A multi-byte opcode whose extra bytes would run past the end of the buffer
fails with the truncation error, whatever the decoder state. -/
theorem decodeStep_truncated {m : List Nat} {i b : Nat} {ivs : List Nat}
    (hm : m.getD i 0 = b) (hb : 0x80 ≤ b)
    (hshort : m.length < i + opcodeAdvance b) :
    decodeStep m i ivs = Except.error DecodeError.truncated := by
  by_cases h9 : b ≤ 0x9F
  · have ha : opcodeAdvance b = 2 := by
      unfold opcodeAdvance; rw [if_neg (by omega), if_pos h9]
    have hf : fetch m (i + 1) = Except.error DecodeError.truncated :=
      fetch_eq_error (by omega)
    simp only [decodeStep, hm, if_neg (by omega : ¬ b ≤ 0x7F), if_pos h9, hf]
    rfl
  · by_cases hB : b ≤ 0xBF
    · have ha : opcodeAdvance b = 3 := by
        unfold opcodeAdvance; rw [if_neg (by omega), if_neg h9, if_pos hB]
      by_cases h1 : i + 1 < m.length
      · have hf1 : fetch m (i + 1) = Except.ok (m.getD (i + 1) 0) := fetch_eq_ok h1
        have hf2 : fetch m (i + 2) = Except.error DecodeError.truncated :=
          fetch_eq_error (by omega)
        simp only [decodeStep, hm, if_neg (by omega : ¬ b ≤ 0x7F), if_neg h9, if_pos hB,
          hf1, except_bind_ok, hf2]
        rfl
      · have hf1 : fetch m (i + 1) = Except.error DecodeError.truncated :=
          fetch_eq_error (by omega)
        simp only [decodeStep, hm, if_neg (by omega : ¬ b ≤ 0x7F), if_neg h9, if_pos hB, hf1]
        rfl
    · by_cases hD : b ≤ 0xDF
      · have ha : opcodeAdvance b = 4 := by
          unfold opcodeAdvance; rw [if_neg (by omega), if_neg h9, if_neg hB, if_pos hD]
        by_cases h1 : i + 1 < m.length
        · have hf1 : fetch m (i + 1) = Except.ok (m.getD (i + 1) 0) := fetch_eq_ok h1
          by_cases h2 : i + 2 < m.length
          · have hf2 : fetch m (i + 2) = Except.ok (m.getD (i + 2) 0) := fetch_eq_ok h2
            have hf3 : fetch m (i + 3) = Except.error DecodeError.truncated :=
              fetch_eq_error (by omega)
            simp only [decodeStep, hm, if_neg (by omega : ¬ b ≤ 0x7F), if_neg h9, if_neg hB,
              if_pos hD, hf1, hf2, except_bind_ok, hf3]
            rfl
          · have hf2 : fetch m (i + 2) = Except.error DecodeError.truncated :=
              fetch_eq_error (by omega)
            simp only [decodeStep, hm, if_neg (by omega : ¬ b ≤ 0x7F), if_neg h9, if_neg hB,
              if_pos hD, hf1, except_bind_ok, hf2]
            rfl
        · have hf1 : fetch m (i + 1) = Except.error DecodeError.truncated :=
            fetch_eq_error (by omega)
          simp only [decodeStep, hm, if_neg (by omega : ¬ b ≤ 0x7F), if_neg h9, if_neg hB,
            if_pos hD, hf1]
          rfl
      · have ha : opcodeAdvance b = 2 := by
          unfold opcodeAdvance
          rw [if_neg (by omega), if_neg h9, if_neg hB, if_neg hD]
        have hf : fetch m (i + 1) = Except.error DecodeError.truncated :=
          fetch_eq_error (by omega)
        simp only [decodeStep, hm, if_neg (by omega : ¬ b ≤ 0x7F), if_neg h9, if_neg hB,
          if_neg hD, hf]
        rfl

/-- Shifted-or with a low part bounded by the shift width is positional
addition. -/
theorem shiftLeft_lor_eq {a c k : Nat} (h : c < 2 ^ k) :
    (a <<< k) ||| c = a * 2 ^ k + c := by
  rw [Nat.shiftLeft_eq, Nat.mul_comm a (2 ^ k), Nat.mul_add_lt_is_or h]

/-- Masking with the five low bits is reduction mod 32. -/
theorem and_31_eq_mod (b : Nat) : b &&& 0b00011111 = b % 32 := by
  have h := Nat.and_pow_two_sub_one_eq_mod b 5
  norm_num at h
  exact h

/-- Value of the 13-bit branch in positional most-significant-first form. -/
theorem abs13_value {b b1 : Nat} (h1 : b1 < 256) :
    ((b &&& 0b00011111) <<< 8) ||| b1 = b % 32 * 2 ^ 8 + b1 := by
  rw [and_31_eq_mod, shiftLeft_lor_eq (show b1 < 2 ^ 8 by omega)]

/-- Value of the 21-bit branch in positional most-significant-first form. -/
theorem abs21_value {b b1 b2 : Nat} (h1 : b1 < 256) (h2 : b2 < 256) :
    (((b &&& 0b00011111) <<< 16) ||| (b1 <<< 8)) ||| b2 =
      b % 32 * 2 ^ 16 + b1 * 2 ^ 8 + b2 := by
  rw [Nat.lor_assoc, shiftLeft_lor_eq (show b2 < 2 ^ 8 by omega),
    shiftLeft_lor_eq (show b1 * 2 ^ 8 + b2 < 2 ^ 16 by omega), and_31_eq_mod]
  omega

/-- Value of the 29-bit branch in positional most-significant-first form. -/
theorem abs29_value {b b1 b2 b3 : Nat} (h1 : b1 < 256) (h2 : b2 < 256) (h3 : b3 < 256) :
    ((((b &&& 0b00011111) <<< 24) ||| (b1 <<< 16)) ||| (b2 <<< 8)) ||| b3 =
      b % 32 * 2 ^ 24 + b1 * 2 ^ 16 + b2 * 2 ^ 8 + b3 := by
  rw [Nat.lor_assoc, Nat.lor_assoc, shiftLeft_lor_eq (show b3 < 2 ^ 8 by omega),
    shiftLeft_lor_eq (show b2 * 2 ^ 8 + b3 < 2 ^ 16 by omega),
    shiftLeft_lor_eq (show b1 * 2 ^ 16 + (b2 * 2 ^ 8 + b3) < 2 ^ 24 by omega), and_31_eq_mod]
  omega

/-- Last element of a nonempty constant list. -/
theorem getLast?_replicate_succ (t a : Nat) :
    (List.replicate (t + 1) a).getLast? = some a := by
  rw [List.replicate_succ']
  exact List.getLast?_concat _

/-- Folding addition from an accumulator totals the accumulator plus the sum. -/
theorem foldl_add_eq_sum (ivs : List Nat) : ∀ a : Nat,
    ivs.foldl (fun x y => x + y) a = a + ivs.sum := by
  induction ivs with
  | nil => intro a; simp
  | cons v l ih =>
    intro a
    rw [List.foldl_cons, ih (a + v), List.sum_cons]
    omega

/-- A date absent from the known list makes the first-index search miss. -/
theorem findIdx?_none_of_not_mem {dates : List Date} {d : Date} (h : d ∉ dates) :
    dates.findIdx? (fun x => decide (x = d)) = none := by
  rw [List.findIdx?_eq_none_iff]
  intro x hx
  simp only [decide_eq_false_iff_not]
  intro he
  exact h (he ▸ hx)

/-- C1 counterexample: a data region consisting of the single delta byte 0x05
with no prior interval decodes successfully to the empty interval sequence:
decoding does not fail and the file is not rejected, contrary to the claimed
LeadingDelta failure. -/
theorem C1_counterexample :
    anabat_decode [0x05] = Except.ok [] ∧
      ∀ e : DecodeError, anabat_decode [0x05] ≠ Except.error e := by
  refine ⟨rfl, ?_⟩
  intro e h
  rw [show anabat_decode [0x05] = Except.ok [] from rfl] at h
  exact Except.noConfusion h

/-- C1 amended: when the interval data region begins with a byte in 0x00-0x7F
before any absolute interval has been decoded, the decoder does not fail: it
reports a diagnostic, skips that byte without emitting an interval, and
decodes the remainder of the region exactly as if the region had started one
byte later. -/
theorem C1_amended_leading_delta_skipped {b : Nat} {rest : List Nat} (hb : b ≤ 0x7F) :
    anabat_decode (b :: rest) = anabat_decode rest := by
  unfold anabat_decode
  have hstep : decodeStep (b :: rest) 0 [] = Except.ok (1, []) :=
    decodeStep_delta_skip (by simpa using hb)
  simp only [List.length_cons, decodeLoopF, if_pos (Nat.succ_pos rest.length), hstep]
  exact decodeLoopF_cons rest.length 0 []

/-- C1 witness: a leading delta byte before the absolute opcode pair is
dropped and the rest decodes as usual. -/
theorem C1_amended_witness :
    anabat_decode [0x05, 0x81, 0x2C] = anabat_decode [0x81, 0x2C] :=
  C1_amended_leading_delta_skipped (by decide)

/-- C2 counterexample: after the opcode pair 0x80 0x00 decodes the absolute
interval 0, the delta byte 0x7F (twos-complement -1) does not yield
0 + (-1) = -1 as the claim requires: the stored unsigned interval is
2^32 - 1 = 4294967295. -/
theorem C2_counterexample :
    anabat_decode [0x80, 0x00, 0x7F] = Except.ok [0, 4294967295] ∧
      (0 : Int) + deltaOffset 0x7F ≠ (4294967295 : Int) :=
  ⟨rfl, by decide⟩

/-- C2 amended: a delta byte b decoded after a previous interval p stores the
unsigned 32-bit value (p + signed(b)) mod 2^32, where signed(b) is b for b in
0..63 and b - 128 for b in 64..127; whenever p + signed(b) lies in
0..2^32 - 1 the stored interval equals p + signed(b) exactly, which covers the
1000 + 0x05 = 1005 and 1000 + 0x7B = 995 examples. -/
theorem C2_amended_delta_mod {m : List Nat} {i p b : Nat} {ivs : List Nat}
    (hb : b ≤ 0x7F) (hm : m.getD i 0 = b) (hlast : ivs.getLast? = some p)
    (hcap : ivs.length < STORAGE_CAP) :
    decodeStep m i ivs =
      Except.ok (i + 1, ivs ++ [(((p : Int) + deltaOffset b) % (2 ^ 32 : Int)).toNat]) ∧
    deltaOffset b = (if b < 64 then (b : Int) else (b : Int) - 128) ∧
    (∀ v : Int, 0 ≤ v → v < 2 ^ 32 → ((v % (2 ^ 32 : Int)).toNat : Int) = v) := by
  refine ⟨decodeStep_delta hb hm hlast hcap, rfl, ?_⟩
  intro v h0 hlt
  rw [Int.emod_eq_of_lt h0 hlt, Int.toNat_of_nonneg h0]

/-- C2 witness: previous interval 1000 with delta byte 0x05 appends 1005, and
with delta byte 0x7B appends 995. -/
theorem C2_amended_witness :
    decodeStep [0x05] 0 [1000] = Except.ok (1, [1000, 1005]) ∧
      decodeStep [0x7B] 0 [1000] = Except.ok (1, [1000, 995]) := by
  constructor
  · have h := @C2_amended_delta_mod [0x05] 0 1000 0x05 [1000]
      (by decide) (by decide) (by decide) (by decide)
    rw [h.1]
    rfl
  · have h := @C2_amended_delta_mod [0x7B] 0 1000 0x7B [1000]
      (by decide) (by decide) (by decide) (by decide)
    rw [h.1]
    rfl

/-- C3: each absolute branch emits the value whose most significant five bits
are the low five bits of the opcode byte, with the 1, 2 or 3 consumed data
bytes contributing successively lower 8-bit groups, most significant byte
first; opcode 0x81 with data byte 0x2C yields 300. -/
theorem C3_absolute_value_positional :
    (∀ (m : List Nat) (i : Nat) (ivs : List Nat) (b b1 : Nat),
      0x80 ≤ b → b ≤ 0x9F → m.getD i 0 = b → m[i + 1]? = some b1 → b1 < 256 →
      ivs.length < STORAGE_CAP →
      decodeStep m i ivs = Except.ok (i + 2, ivs ++ [b % 32 * 2 ^ 8 + b1]))
  ∧ (∀ (m : List Nat) (i : Nat) (ivs : List Nat) (b b1 b2 : Nat),
      0xA0 ≤ b → b ≤ 0xBF → m.getD i 0 = b → m[i + 1]? = some b1 → m[i + 2]? = some b2 →
      b1 < 256 → b2 < 256 → ivs.length < STORAGE_CAP →
      decodeStep m i ivs = Except.ok (i + 3, ivs ++ [b % 32 * 2 ^ 16 + b1 * 2 ^ 8 + b2]))
  ∧ (∀ (m : List Nat) (i : Nat) (ivs : List Nat) (b b1 b2 b3 : Nat),
      0xC0 ≤ b → b ≤ 0xDF → m.getD i 0 = b → m[i + 1]? = some b1 → m[i + 2]? = some b2 →
      m[i + 3]? = some b3 → b1 < 256 → b2 < 256 → b3 < 256 → ivs.length < STORAGE_CAP →
      decodeStep m i ivs =
        Except.ok (i + 4, ivs ++ [b % 32 * 2 ^ 24 + b1 * 2 ^ 16 + b2 * 2 ^ 8 + b3])) := by
  refine ⟨?_, ?_, ?_⟩
  · intro m i ivs b b1 hb0 hb hm h1 hb1 hcap
    rw [decodeStep_abs13 hb0 hb hm h1 hcap, abs13_value hb1]
  · intro m i ivs b b1 b2 hb0 hb hm h1 h2 hb1 hb2 hcap
    rw [decodeStep_abs21 hb0 hb hm h1 h2 hcap, abs21_value hb1 hb2]
  · intro m i ivs b b1 b2 b3 hb0 hb hm h1 h2 h3 hb1 hb2 hb3 hcap
    rw [decodeStep_abs29 hb0 hb hm h1 h2 h3 hcap, abs29_value hb1 hb2 hb3]

/-- C3 witness: opcode 0x81 followed by data byte 0x2C emits the interval
value 300 = (1 <<< 8) + 0x2C. -/
theorem C3_witness : decodeStep [0x81, 0x2C] 0 [] = Except.ok (2, [300]) := by
  have h := C3_absolute_value_positional.1 [0x81, 0x2C] 0 [] 0x81 0x2C (by decide) (by decide)
    (by decide) (by decide) (by decide) (by decide)
  rw [h]
  rfl

/-- C4: every successfully processed opcode advances the cursor by exactly one
plus the number of extra bytes it consumes: 1 in total for 0x00-0x7F, 2 for
0x80-0x9F, 3 for 0xA0-0xBF, 4 for 0xC0-0xDF and 2 for the status range
0xE0-0xFF, whether or not an interval was emitted. -/
theorem C4_cursor_advance {m : List Nat} {i : Nat} {ivs : List Nat} {i' : Nat} {ivs' : List Nat}
    (h : decodeStep m i ivs = Except.ok (i', ivs')) :
    i' = i + opcodeAdvance (m.getD i 0) :=
  decodeStep_advance h

/-- C4 witness: the two-byte 13-bit opcode advances the cursor from 0 to 2. -/
theorem C4_witness : (2 : Nat) = 0 + opcodeAdvance (([0x81, 0x2C] : List Nat).getD 0 0) :=
  @C4_cursor_advance [0x81, 0x2C] 0 [] 2 [300] rfl

/-- C5: the loop terminates cleanly exactly at the end of the buffer: from a
cursor at or past the end it returns at once with the accumulated sequence,
every clean termination from inside the buffer ends with the cursor exactly at
the buffer length (an opcode boundary), and any multi-byte opcode needing
bytes past the end of the buffer fails with the truncation error rather than
reading out of bounds. -/
theorem C5_clean_termination_and_truncation :
    (∀ (fuel : Nat) (m : List Nat) (i : Nat) (ivs : List Nat), m.length ≤ i →
        decodeLoopC fuel m i ivs = Except.ok (i, ivs))
  ∧ (∀ (fuel : Nat) (m : List Nat) (i : Nat) (ivs out : List Nat) (cur : Nat),
        m.length - i ≤ fuel → i ≤ m.length →
        decodeLoopC fuel m i ivs = Except.ok (cur, out) → cur = m.length)
  ∧ (∀ (m : List Nat) (i b : Nat) (ivs : List Nat),
        m.getD i 0 = b → 0x80 ≤ b → m.length < i + opcodeAdvance b →
        decodeStep m i ivs = Except.error DecodeError.truncated) := by
  refine ⟨?_, ?_, ?_⟩
  · intro fuel m i ivs h
    exact decodeLoopC_at_end h
  · intro fuel m i ivs out cur hf hi h
    exact decodeLoopC_final_cursor fuel i ivs cur out hf hi h
  · intro m i b ivs hm hb hshort
    exact decodeStep_truncated hm hb hshort

/-- C5 witness: at the end of the buffer the loop stops with the sequence so
far; a full run ends with the cursor at the buffer length; and the 21-bit
opcode 0xA0 with only one following byte is truncation. -/
theorem C5_witness :
    decodeLoopC 3 [0x81, 0x2C] 2 [300] = Except.ok (2, [300]) ∧
    (2 : Nat) = ([0x81, 0x2C] : List Nat).length ∧
    decodeStep [0xA0, 0x01] 0 [] = Except.error DecodeError.truncated := by
  refine ⟨C5_clean_termination_and_truncation.1 3 [0x81, 0x2C] 2 [300] (by decide), ?_, ?_⟩
  · exact C5_clean_termination_and_truncation.2.1 2 [0x81, 0x2C] 0 [] [300] 2
      (by decide) (by decide) rfl
  · exact C5_clean_termination_and_truncation.2.2 [0xA0, 0x01] 0 0xA0 []
      (by decide) (by decide) (by decide)

/-- C7: the aggregated duration in seconds equals the sum of the interval
values in microseconds scaled by 1e-6, and the empty data region yields the
empty sequence with duration 0. -/
theorem C7_duration_sum :
    (∀ ivs : List Nat, duration_s ivs = ((ivs.sum : Nat) : ℚ) * (1 / 1000000))
  ∧ duration_s [] = 0
  ∧ anabat_duration_s [] = Except.ok 0 := by
  refine ⟨?_, by simp [duration_s], ?_⟩
  · intro ivs
    unfold duration_s
    rw [foldl_add_eq_sum ivs 0]
    norm_num
  · show (anabat_decode []).map duration_s = Except.ok 0
    rw [show anabat_decode [] = Except.ok [] from rfl]
    simp [Except.map, duration_s]

/-- C8: with a bin width evenly dividing 60, a capture at a given hour and
minute is binned into row hour * (60 / width) + minute / width, and the
23:50 capture with the 15-minute bins of the script lands in row 23 * 4 + 3 = 95. -/
theorem C8_bin_row (binsize hour minute : Nat) (hdvd : binsize ∣ 60) :
    binRow binsize hour minute = hour * (60 / binsize) + minute / binsize ∧
    binRow BINSIZE_MINUTES 23 50 = 95 :=
  ⟨rfl, rfl⟩

/-- C8 witness: the 15-minute bin width divides 60 and places 23:50 in row
95. -/
theorem C8_witness :
    binRow 15 23 50 = 23 * (60 / 15) + 50 / 15 ∧ binRow BINSIZE_MINUTES 23 50 = 95 :=
  C8_bin_row 15 23 50 (by decide)

/-- C9: a timestamp whose calendar date is missing from the known nights is
skipped softly: its contribution leaves the whole grid unchanged, folding
simply continues with the remaining timestamps, and no contribution of any
timestamp ever changes the number of rows or the length of any row. -/
theorem C9_lookup_miss (dates : List Date) (ts : Timestamp) (h : ts.date ∉ dates) :
    (∀ g, binStep dates g ts = g)
  ∧ (∀ (g : List (List Nat)) (rest : List Timestamp),
      List.foldl (binStep dates) g (ts :: rest) = List.foldl (binStep dates) g rest)
  ∧ (∀ (g : List (List Nat)) (ts' : Timestamp),
      (binStep dates g ts').length = g.length ∧
      ∀ y, ((binStep dates g ts').getD y []).length = (g.getD y []).length) := by
  have hnone := findIdx?_none_of_not_mem h
  have hskip : ∀ g, binStep dates g ts = g := by
    intro g
    simp [binStep, hnone]
  refine ⟨hskip, ?_, ?_⟩
  · intro g rest
    rw [List.foldl_cons, hskip g]
  · intro g ts'
    cases hfind : dates.findIdx? fun d => decide (d = ts'.date) with
    | none =>
      have hbs : binStep dates g ts' = g := by simp [binStep, hfind]
      rw [hbs]
      exact ⟨rfl, fun y => rfl⟩
    | some x =>
      have hbs : binStep dates g ts' =
          g.set (binRow BINSIZE_MINUTES ts'.hour ts'.minute)
            ((g.getD (binRow BINSIZE_MINUTES ts'.hour ts'.minute) []).set x
              ((g.getD (binRow BINSIZE_MINUTES ts'.hour ts'.minute) []).getD x 0 + 1)) := by
        simp [binStep, hfind, gridInc]
      rw [hbs]
      refine ⟨List.length_set .., ?_⟩
      intro y
      by_cases hy : binRow BINSIZE_MINUTES ts'.hour ts'.minute = y
      · subst hy
        by_cases hlt : binRow BINSIZE_MINUTES ts'.hour ts'.minute < g.length
        · simp only [List.getD_eq_getElem?_getD, List.getElem?_set_self hlt,
            Option.getD_some, List.length_set]
        · rw [List.set_eq_of_length_le (by omega)]
      · simp only [List.getD_eq_getElem?_getD, List.getElem?_set_ne hy]

/-- C9 witness: a capture on 2020-01-03 is skipped when the only known night
is 2020-01-02, and its contribution neither changes any cell nor the grid
shape. -/
theorem C9_witness :
    binStep [Date.mk 2020 1 2] (gridZeros 96 1) (Timestamp.mk (Date.mk 2020 1 3) 23 50) =
      gridZeros 96 1 :=
  (C9_lookup_miss [Date.mk 2020 1 2] (Timestamp.mk (Date.mk 2020 1 3) 23 50)
    (by decide)).1 (gridZeros 96 1)

/-- C10: the delta branch computes the new interval in unsigned 32-bit
arithmetic: the stored value is (p + signed(b)) mod 2^32, and when a negative
delta takes the value below zero the stored interval wraps to
p + signed(b) + 2^32 with no error and no negative value. -/
theorem C10_delta_wraparound {m : List Nat} {i p b : Nat} {ivs : List Nat}
    (hb : b ≤ 0x7F) (hm : m.getD i 0 = b) (hlast : ivs.getLast? = some p)
    (hcap : ivs.length < STORAGE_CAP) :
    decodeStep m i ivs =
      Except.ok (i + 1, ivs ++ [(((p : Int) + deltaOffset b) % (2 ^ 32 : Int)).toNat]) ∧
    ((p : Int) + deltaOffset b < 0 →
      ((((p : Int) + deltaOffset b) % (2 ^ 32 : Int)).toNat : Int) =
        (p : Int) + deltaOffset b + 2 ^ 32) := by
  refine ⟨decodeStep_delta hb hm hlast hcap, ?_⟩
  intro hneg
  have hd : (-64 : Int) ≤ deltaOffset b := by
    unfold deltaOffset
    split <;> omega
  have hp : (0 : Int) ≤ (p : Int) := Int.ofNat_nonneg p
  have h0 : (0 : Int) ≤ (p : Int) + deltaOffset b + 2 ^ 32 := by omega
  have heq : ((p : Int) + deltaOffset b) % (2 ^ 32 : Int) =
      ((p : Int) + deltaOffset b + 2 ^ 32) % (2 ^ 32 : Int) := Int.add_emod_self.symm
  rw [heq, Int.emod_eq_of_lt h0 (by omega), Int.toNat_of_nonneg h0]

/-- C10 witness: previous interval 0 with delta byte 0x7F (signed -1) stores
the wrapped interval 4294967295 without error. -/
theorem C10_witness : decodeStep [0x7F] 0 [0] = Except.ok (1, [0, 4294967295]) := by
  have h := @C10_delta_wraparound [0x7F] 0 0 0x7F [0]
    (by decide) (by decide) (by decide) (by decide)
  rw [h.1]
  rfl

/-- Delta branch with a previous interval but exhausted storage: the write at
index 2^14 of the fixed array is the IndexError model. -/
theorem decodeStep_delta_full {m : List Nat} {i b : Nat} {ivs : List Nat}
    (hb : b ≤ 0x7F) (hm : m.getD i 0 = b) (hne : 0 < ivs.length)
    (hcap : ¬ ivs.length < STORAGE_CAP) :
    decodeStep m i ivs = Except.error DecodeError.indexOOB := by
  simp only [decodeStep, hm, if_pos hb, if_pos hne, store, if_neg hcap]
  rfl

/-- Byte read from the oversized all-zero tail. -/
theorem oversized_getD {t : Nat} (h : t < STORAGE_CAP) :
    (0x80 :: 0x00 :: List.replicate STORAGE_CAP 0).getD (t + 2) 0 = 0 := by
  simp [List.getD_eq_getElem?_getD, List.getElem?_cons_succ, List.getElem?_replicate_of_lt h]

/-- Zero delta after a last interval of zero stores zero again. -/
theorem zero_delta_value : ((((0 : Nat) : Int) + deltaOffset 0) % (2 ^ 32 : Int)).toNat = 0 := by
  decide

/-- Decoding the all-delta-zero tail of the oversized region from cursor t + 2
with t + 1 intervals already stored always reaches the write at index 2^14 and
fails with the IndexError model. -/
theorem zeros_decode_oob :
    ∀ (d t fuel : Nat), t + d = STORAGE_CAP - 1 → d + 1 ≤ fuel →
      decodeLoopF fuel (0x80 :: 0x00 :: List.replicate STORAGE_CAP 0) (t + 2)
        (List.replicate (t + 1) 0) = Except.error DecodeError.indexOOB := by
  intro d
  induction d with
  | zero =>
    intro t fuel ht hfuel
    cases fuel with
    | zero => omega
    | succ f =>
      have htlt : t < STORAGE_CAP := by
        have : 0 < STORAGE_CAP := by decide
        omega
      have hm0 := oversized_getD htlt
      have hfull : ¬ (List.replicate (t + 1) (0 : Nat)).length < STORAGE_CAP := by
        simp only [List.length_replicate]
        omega
      have hstep := decodeStep_delta_full (b := 0) (by omega) hm0 (by simp) hfull
      have hin : t + 2 < (0x80 :: 0x00 :: List.replicate STORAGE_CAP 0).length := by
        simp only [List.length_cons, List.length_replicate]
        omega
      simp only [decodeLoopF, if_pos hin, hstep]
  | succ d ih =>
    intro t fuel ht hfuel
    cases fuel with
    | zero => omega
    | succ f =>
      have htlt : t < STORAGE_CAP := by omega
      have hm0 := oversized_getD htlt
      have hcap : (List.replicate (t + 1) (0 : Nat)).length < STORAGE_CAP := by
        simp only [List.length_replicate]
        omega
      have hstep := decodeStep_delta (p := 0) (b := 0) (by omega) hm0
        (getLast?_replicate_succ t 0) hcap
      rw [zero_delta_value] at hstep
      have hivs : List.replicate (t + 1) (0 : Nat) ++ [0] = List.replicate (t + 1 + 1) 0 :=
        (List.replicate_succ' (t + 1) 0).symm
      rw [hivs] at hstep
      have hin : t + 2 < (0x80 :: 0x00 :: List.replicate STORAGE_CAP 0).length := by
        simp only [List.length_cons, List.length_replicate]
        omega
      simp only [decodeLoopF, if_pos hin, hstep]
      exact ih (t + 1) f (by omega) (by omega)

/-- C6: the claim fails on the code because the interval storage is a fixed
array of 2^14 entries written without a bound check: a data region of
2 + 2^14 bytes whose opcodes emit 2^14 + 1 intervals makes the decoder fail
with the modelled IndexError on the final write instead of succeeding with a
sequence of one interval per byte. -/
theorem C6_storage_overrun :
    anabat_decode (0x80 :: 0x00 :: List.replicate STORAGE_CAP 0) =
      Except.error DecodeError.indexOOB := by
  unfold anabat_decode
  have hlen : (0x80 :: 0x00 :: List.replicate STORAGE_CAP 0).length = STORAGE_CAP + 1 + 1 := by
    simp
  rw [hlen]
  have hstep : decodeStep (0x80 :: 0x00 :: List.replicate STORAGE_CAP 0) 0 [] =
      Except.ok (2, [0]) := by
    have hm : (0x80 :: 0x00 :: List.replicate STORAGE_CAP 0).getD 0 0 = 0x80 := by
      simp
    have h1 : (0x80 :: 0x00 :: List.replicate STORAGE_CAP 0)[0 + 1]? = some 0x00 := by
      simp
    have hc : ([] : List Nat).length < STORAGE_CAP := by
      show 0 < 2 ^ 14
      omega
    have h := decodeStep_abs13 (by omega) (by omega) hm h1 hc
    rw [h]
    rfl
  have hin : 0 < (0x80 :: 0x00 :: List.replicate STORAGE_CAP 0).length := by
    simp
  rw [decodeLoopF_succ, if_pos hin, hstep]
  exact zeros_decode_oob (STORAGE_CAP - 1) 0 (STORAGE_CAP + 1) (by omega)
    (by omega)

end RoostLogger
